import Mathlib

/-!
Formal model of the terminal flashcard application (`flashcards/app.py`).

The program keeps a single JSON-like document `{"collections": {name:
{"cards": [{"id", "front", "back"}, ...]}, ...}}` and mutates it through a
set of domain operations (create/delete collection, add/edit/delete/search
card) plus a learn-mode drill loop.  Here the well-formed in-memory state is
modelled with typed values (`Card`, `Collection`, `Registry`), the persisted
document with a `Json` tree, and interactive input with explicit lists of
input lines.  Python text is modelled as `List Char`; `str.strip()`,
`str.lower()` and the substring test `a in b` are given explicit definitions
below.
-/

/-- Python `str` values, modelled as lists of characters. -/
abbrev Str := List Char

/-- Python `str.strip()`: drop leading and trailing whitespace. -/
def pyStrip (s : Str) : Str :=
  ((s.dropWhile Char.isWhitespace).reverse.dropWhile Char.isWhitespace).reverse

/-- Python `str.lower()` on the ASCII text handled by the app. -/
def pyLower (s : Str) : Str := s.map Char.toLower

/-- Python `a in b` on strings: `a` occurs as a contiguous substring of `b`. -/
def substrB (a b : Str) : Bool := decide (a <:+: b)

/-- A flashcard, the dict `{"id": ..., "front": ..., "back": ...}` built by
`add_card`. -/
structure Card where
  id : Str
  front : Str
  back : Str
deriving DecidableEq, Repr

/-- The `"cards"` list of one collection, in stored order. -/
abbrev Collection := List Card

/-- The `data["collections"]` mapping: insertion-ordered association of
collection names to collections, as a Python dict preserves it. -/
abbrev Registry := List (Str × Collection)

/-- Key membership test `name in data["collections"]`. -/
def containsName (reg : Registry) (name : Str) : Bool :=
  reg.any (fun p => p.1 == name)

/-- Error signalled by `create_collection` when the name is taken. -/
inductive CreateError where
  | duplicateName
deriving DecidableEq, Repr

/-- Function `create_collection`: if the name exists, report the duplicate and
leave the data untouched; otherwise insert a fresh empty collection (dict
insertion appends at the end of the iteration order). -/
def create_collection (reg : Registry) (name : Str) : Option CreateError × Registry :=
  if containsName reg name then (some CreateError.duplicateName, reg)
  else (none, reg ++ [(name, [])])

/-- Function `find_card`: first card of the list whose `id` equals `card_id`,
if any. -/
def find_card (cards : Collection) (card_id : Str) : Option Card :=
  cards.find? (fun c => c.id == card_id)

/-- The 32 lowercase hex digits of `uuid.uuid4().hex`, for the 128-bit uuid
value `n` (most significant digit first, zero padded as `%032x` does). -/
def hexChar (d : Nat) : Char :=
  if d < 10 then Char.ofNat (48 + d) else Char.ofNat (87 + d)

/-- Full hex expansion of the uuid value, 32 digits. -/
def uuidHex (n : Nat) : Str :=
  (List.range 32).map (fun i => hexChar (n / 16 ^ (31 - i) % 16))

/-- Function `add_card` (domain part): the card id is `uuid.uuid4().hex[:8]`
where `n` stands for the drawn uuid value; the new card is appended at the
end of the collection.  `front` and `back` arrive from `prompt_nonempty`. -/
def add_card (cards : Collection) (front back : Str) (n : Nat) : Collection :=
  cards ++ [Card.mk ((uuidHex n).take 8) front back]

/-- Hit test of `search_cards`: the query is lowercased once at the prompt
(`q = prompt_nonempty(...).lower()`) and then tested with
`q in c["front"].lower() or q in c["back"].lower()`. -/
def cardHit (q : Str) (c : Card) : Bool :=
  substrB (pyLower q) (pyLower c.front) || substrB (pyLower q) (pyLower c.back)

/-- Function `search_cards` (domain part): the comprehension
`[c for c in cards if q in c["front"].lower() or q in c["back"].lower()]`. -/
def search_cards (cards : Collection) (q : Str) : Collection :=
  cards.filter (cardHit q)

/-- In-place field update performed by `edit_card` once the card is found.
The raw line is read by `input(...).rstrip("\n")` and then tested and stored
as `new_front.strip()`; since `strip()` also removes trailing newlines the
stored value equals the stripped raw line. -/
def applyEdit (c : Card) (new_front new_back : Str) : Card :=
  Card.mk c.id
    (if pyStrip new_front = [] then c.front else pyStrip new_front)
    (if pyStrip new_back = [] then c.back else pyStrip new_back)

/-- Function `edit_card` (domain part): find the first card with the given
id and update it in place; when the id is absent the collection is left
unchanged. -/
def edit_card : Collection → Str → Str → Str → Collection
  | [], _, _, _ => []
  | c :: rest, i, nf, nb =>
    if c.id == i then applyEdit c nf nb :: rest
    else c :: edit_card rest i nf nb

/-- Error signalled by `delete_card` when the id is absent. -/
inductive CardError where
  | notFound
deriving DecidableEq, Repr

/-- Function `delete_card` (domain part): `find_card` then `cards.remove(card)`,
which removes the first element equal to the found card; on a missing id the
code reports the failure and leaves the list unchanged. -/
def delete_card (cards : Collection) (card_id : Str) : Option CardError × Collection :=
  match find_card cards card_id with
  | none => (some CardError.notFound, cards)
  | some c => (none, cards.erase c)

/-- Helper: a hex digit below 16 renders to a lowercase hex character. -/
lemma hexChar_mem_digits (d : Nat) (hd : d < 16) :
    hexChar d ∈ "0123456789abcdef".data := by
  interval_cases d <;> decide

/-- Helper: looking a key up after a block of entries with other keys. -/
lemma lookup_skip (name : Str) (l : Registry) :
    ∀ reg : Registry, (∀ p ∈ reg, p.1 ≠ name) →
      List.lookup name (reg ++ l) = List.lookup name l := by
  intro reg
  induction reg with
  | nil => intro _; rfl
  | cons p rest ih =>
    intro h
    have hp : (name == p.1) = false := by
      have := h p (by simp)
      simp [beq_eq_false_iff_ne]
      exact fun he => this he.symm
    simp [List.lookup, hp]
    exact ih (fun x hx => h x (by simp [hx]))

/-- Helper: `find_card` skips a block of cards whose ids all differ from the
searched id. -/
lemma find_card_skip (l : Collection) (i : Str) :
    ∀ pre : Collection, (∀ c ∈ pre, c.id ≠ i) →
      find_card (pre ++ l) i = find_card l i := by
  intro pre
  induction pre with
  | nil => intro _; rfl
  | cons c rest ih =>
    intro h
    have hc : (c.id == i) = false := by simpa using h c (by simp)
    simp only [find_card, List.cons_append, List.find?_cons, hc]
    exact ih (fun x hx => h x (by simp [hx]))

/-- Helper: `edit_card` leaves a block of cards with non-matching ids alone. -/
lemma edit_card_skip (l : Collection) (i nf nb : Str) :
    ∀ pre : Collection, (∀ c ∈ pre, c.id ≠ i) →
      edit_card (pre ++ l) i nf nb = pre ++ edit_card l i nf nb := by
  intro pre
  induction pre with
  | nil => intro _; rfl
  | cons c rest ih =>
    intro h
    have hc : (c.id == i) = false := by simpa using h c (by simp)
    simp only [List.cons_append, edit_card, hc, if_false, Bool.false_eq_true]
    exact congrArg _ (ih (fun x hx => h x (by simp [hx])))

/-- C3: `search_cards` returns exactly the cards, in original stored order,
whose lowercased front or back contains the lowercased query as a substring;
the empty query matches every card. -/
theorem search_cards_spec (cards : Collection) (q : Str) :
    search_cards cards [] = cards ∧
    (search_cards cards q).Sublist cards ∧
    ∀ c, c ∈ search_cards cards q ↔
      c ∈ cards ∧ (pyLower q <:+: pyLower c.front ∨ pyLower q <:+: pyLower c.back) := by
  refine ⟨?_, List.filter_sublist _, ?_⟩
  · apply List.filter_eq_self.mpr
    intro c _
    simp [cardHit, substrB, pyLower, List.nil_infix]
  · intro c
    simp [search_cards, List.mem_filter, cardHit, substrB]

/-- C9: every card id produced at add time (`uuid.uuid4().hex[:8]`) is exactly
8 characters long and consists only of lowercase hexadecimal digits, and the
card is appended at the end. -/
theorem add_card_id_format (cards : Collection) (front back : Str) (n : Nat) :
    ∃ c : Card, add_card cards front back n = cards ++ [c] ∧
      c.id.length = 8 ∧ ∀ ch ∈ c.id, ch ∈ "0123456789abcdef".data := by
  refine ⟨_, rfl, ?_, ?_⟩
  · simp [uuidHex]
  · intro ch hch
    have hmem : ch ∈ uuidHex n := List.mem_of_mem_take hch
    simp only [uuidHex, List.mem_map] at hmem
    obtain ⟨i, _, he⟩ := hmem
    rw [← he]
    exact hexChar_mem_digits _ (Nat.mod_lt _ (by norm_num))

/-- C5: creating a collection under a name already present signals
`DuplicateName` and returns the registry unchanged; under a fresh name it
appends an empty collection that can then be looked up. -/
theorem create_collection_spec (reg : Registry) (name : Str) :
    ((∃ p ∈ reg, p.1 = name) →
      create_collection reg name = (some CreateError.duplicateName, reg)) ∧
    ((∀ p ∈ reg, p.1 ≠ name) →
      (create_collection reg name).1 = none ∧
      (create_collection reg name).2 = reg ++ [(name, [])] ∧
      List.lookup name (create_collection reg name).2 = some []) := by
  constructor
  · intro h
    obtain ⟨p, hp, he⟩ := h
    have : containsName reg name = true := by
      rw [containsName, List.any_eq_true]
      exact ⟨p, hp, by simp [he]⟩
    simp [create_collection, this]
  · intro h
    have hc : containsName reg name = false := by
      simp [containsName]
      intro a b hab
      have := h (a, b) hab
      simpa using this
    refine ⟨by simp [create_collection, hc], by simp [create_collection, hc], ?_⟩
    simp only [create_collection, hc, Bool.false_eq_true, if_false]
    rw [lookup_skip name _ reg h]
    simp [List.lookup]

/-- C5 witness: a concrete duplicate creation is rejected unchanged. -/
theorem create_collection_spec_witness :
    create_collection [("a".data, [])] "a".data
      = (some CreateError.duplicateName, [("a".data, [])]) :=
  (create_collection_spec [("a".data, [])] "a".data).1
    ⟨("a".data, []), by simp, rfl⟩

/-- C6: deleting by an absent id reports `NotFound` and leaves the sequence
unchanged; deleting by a present id removes exactly the (first) card bearing
it, keeping the relative order of the remaining cards. -/
theorem delete_card_spec (cards : Collection) (i : Str) :
    ((∀ c ∈ cards, c.id ≠ i) →
      delete_card cards i = (some CardError.notFound, cards)) ∧
    (∀ pre c post, cards = pre ++ c :: post → c.id = i → (∀ x ∈ pre, x.id ≠ i) →
      delete_card cards i = (none, pre ++ post)) := by
  constructor
  · intro h
    have hf : find_card cards i = none := by
      simp only [find_card, List.find?_eq_none]
      intro c hc
      simpa using h c hc
    simp [delete_card, hf]
  · intro pre c post hc hid hpre
    subst hc
    have hfind : find_card (pre ++ c :: post) i = some c := by
      rw [find_card_skip _ i pre hpre]
      simp [find_card, List.find?_cons, hid]
    have hnm : c ∉ pre := fun hmem => hpre c hmem hid
    simp only [delete_card, hfind]
    rw [List.erase_append_right _ hnm, List.erase_cons_head]

/-- C6 witness: deleting the second of two concrete cards keeps the first. -/
theorem delete_card_spec_witness :
    delete_card [Card.mk "1".data "f".data "g".data,
                 Card.mk "2".data "h".data "k".data] "2".data
      = (none, [Card.mk "1".data "f".data "g".data] ++ []) :=
  (delete_card_spec _ _).2 [Card.mk "1".data "f".data "g".data]
    (Card.mk "2".data "h".data "k".data) [] rfl rfl (by decide)

/-- C4: `edit_card` performs a partial update: a field whose input is
non-blank after trimming is replaced by the trimmed text, a blank input keeps
the stored value (never clearing a field to empty); the card's id and its
position in the sequence are untouched, and two blank inputs leave the whole
collection identical. -/
theorem edit_card_partial_update (pre post : Collection) (c : Card) (nf nb : Str)
    (hpre : ∀ x ∈ pre, x.id ≠ c.id) :
    edit_card (pre ++ c :: post) c.id nf nb = pre ++ applyEdit c nf nb :: post ∧
    (applyEdit c nf nb).id = c.id ∧
    (pyStrip nf = [] → (applyEdit c nf nb).front = c.front) ∧
    (pyStrip nf ≠ [] → (applyEdit c nf nb).front = pyStrip nf) ∧
    (pyStrip nb = [] → (applyEdit c nf nb).back = c.back) ∧
    (pyStrip nb ≠ [] → (applyEdit c nf nb).back = pyStrip nb) ∧
    ((applyEdit c nf nb).front = c.front ∨ (applyEdit c nf nb).front ≠ []) ∧
    ((applyEdit c nf nb).back = c.back ∨ (applyEdit c nf nb).back ≠ []) ∧
    (pyStrip nf = [] → pyStrip nb = [] →
      edit_card (pre ++ c :: post) c.id nf nb = pre ++ c :: post) := by
  have hmain : edit_card (pre ++ c :: post) c.id nf nb = pre ++ applyEdit c nf nb :: post := by
    rw [edit_card_skip _ _ _ _ pre hpre]
    simp [edit_card]
  refine ⟨hmain, rfl, ?_, ?_, ?_, ?_, ?_, ?_, ?_⟩
  · intro h; simp [applyEdit, h]
  · intro h; simp [applyEdit, h]
  · intro h; simp [applyEdit, h]
  · intro h; simp [applyEdit, h]
  · by_cases h : pyStrip nf = []
    · left; simp [applyEdit, h]
    · right; simp [applyEdit, h]
  · by_cases h : pyStrip nb = []
    · left; simp [applyEdit, h]
    · right; simp [applyEdit, h]
  · intro h1 h2
    rw [hmain]
    simp [applyEdit, h1, h2]

/-- C4 witness: editing only the back of a concrete card trims and stores the
new back while the whole updated collection keeps the card in place. -/
theorem edit_card_partial_update_witness :
    edit_card ([] ++ Card.mk "i".data "f".data "b".data :: []) "i".data [] " nb ".data
      = [] ++ applyEdit (Card.mk "i".data "f".data "b".data) [] " nb ".data :: [] :=
  (edit_card_partial_update [] [] (Card.mk "i".data "f".data "b".data)
    [] " nb ".data (by simp)).1

/-- One of the four judgments accepted at the answer prompt of `learn_mode`. -/
inductive Judgment where
  | correct
  | wrong
  | skipped
  | quit
deriving DecidableEq, Repr

/-- Classification of one raw answer line: `input(...).strip().lower()`
followed by the y/n/s/q tests of the inner loop; `none` means the line is
rejected and the loop prompts again without recording a judgment. -/
def classify (s : Str) : Option Judgment :=
  let t := pyLower (pyStrip s)
  if t = "y".data ∨ t = "yes".data then some Judgment.correct
  else if t = "n".data ∨ t = "no".data then some Judgment.wrong
  else if t = "s".data ∨ t = "skip".data then some Judgment.skipped
  else if t = "q".data ∨ t = "quit".data then some Judgment.quit
  else none

/-- The answer loop of `learn_mode`: keep reading lines until one classifies
as a judgment, returning it together with the unread rest of the input. -/
def nextJudgment : List Str → Option (Judgment × List Str)
  | [] => none
  | s :: rest =>
    match classify s with
    | some j => some (j, rest)
    | none => nextJudgment rest

/-- Terminal state of one learn-mode session: the three counters printed at
the end, `total_cards` (the session's `len(cards)`), `cards_seen` (the index
`idx` reached when the session ended), whether a quit ended it early, and the
cards presented, in presentation order. -/
structure SessionResult where
  correct : Nat
  wrong : Nat
  skipped : Nat
  total_cards : Nat
  cards_seen : Nat
  endedEarly : Bool
  visited : List Card
deriving DecidableEq, Repr

/-- The per-card loop of `learn_mode`: each card consumes one line at the
reveal prompt (any line), then the answer loop runs; a quit returns the
tallies at once, otherwise the judged counter grows and the loop advances.
The value `none` models a session blocked on an exhausted input stream. -/
def runCards (total corr wrg skp : Nat) (seen : List Card) :
    List Card → List Str → Option SessionResult
  | [], _ => some (SessionResult.mk corr wrg skp total seen.length false seen.reverse)
  | card :: rest, inputs =>
    match inputs with
    | [] => none
    | _ :: inputs1 =>
      match nextJudgment inputs1 with
      | none => none
      | some (j, inputs2) =>
        match j with
        | Judgment.correct => runCards total (corr + 1) wrg skp (card :: seen) rest inputs2
        | Judgment.wrong => runCards total corr (wrg + 1) skp (card :: seen) rest inputs2
        | Judgment.skipped => runCards total corr wrg (skp + 1) (card :: seen) rest inputs2
        | Judgment.quit =>
          some (SessionResult.mk corr wrg skp total (card :: seen).length true
            (card :: seen).reverse)

/-- Ordering choice offered by the learn-mode menu. -/
inductive OrderMode where
  | inOrder
  | random
deriving DecidableEq, Repr

/-- Function `learn_mode` (domain part): copy the stored cards
(`cards = list(get_cards(...))`), refuse an empty snapshot, optionally
shuffle the copy once at session start (`random.shuffle(cards)` is modelled
by the `shuffled` argument, constrained to be a permutation of the snapshot
in the theorems), then drive the per-card loop over the chosen order. -/
def learn_mode (stored : Collection) (mode : OrderMode) (shuffled : Collection)
    (inputs : List Str) : Option SessionResult :=
  if stored.isEmpty then none
  else
    match mode with
    | OrderMode.inOrder => runCards stored.length 0 0 0 [] stored inputs
    | OrderMode.random => runCards shuffled.length 0 0 0 [] shuffled inputs

/-- Function `get_cards`: `data["collections"][col_name]["cards"]`; the menus
only call it with an existing collection name. -/
def get_cards (reg : Registry) (col_name : Str) : Collection :=
  (List.lookup col_name reg).getD []

/-- Learn mode seen from the registry: the session reads a snapshot of the
collection and never writes to `data`, so the registry comes back as it
went in. -/
def learn_mode_full (reg : Registry) (col_name : Str) (mode : OrderMode)
    (shuffled : Collection) (inputs : List Str) : Option SessionResult × Registry :=
  (learn_mode (get_cards reg col_name) mode shuffled inputs, reg)

/-- Helper: a session that ends without a quit has presented exactly the
cards handed to the loop, after the already-seen ones. -/
lemma runCards_complete (cards : List Card) : ∀ inputs total corr wrg skp seen r,
    runCards total corr wrg skp seen cards inputs = some r →
    r.endedEarly = false →
    r.visited = seen.reverse ++ cards := by
  induction cards with
  | nil =>
    intro inputs total corr wrg skp seen r hr _
    simp only [runCards] at hr
    injection hr with h
    rw [← h]
    simp
  | cons card rest ih =>
    intro inputs total corr wrg skp seen r hr hend
    cases inputs with
    | nil => simp [runCards] at hr
    | cons s inputs1 =>
      simp only [runCards] at hr
      cases hnj : nextJudgment inputs1 with
      | none => rw [hnj] at hr; simp at hr
      | some p =>
        rw [hnj] at hr
        obtain ⟨j, inputs2⟩ := p
        cases j
        case correct =>
          rw [ih inputs2 total (corr + 1) wrg skp (card :: seen) r hr hend]
          simp
        case wrong =>
          rw [ih inputs2 total corr (wrg + 1) skp (card :: seen) r hr hend]
          simp
        case skipped =>
          rw [ih inputs2 total corr wrg (skp + 1) (card :: seen) r hr hend]
          simp
        case quit =>
          injection hr with h
          rw [← h] at hend
          simp at hend

/-- C1: in `Random` mode the session runs over one permutation of the
snapshot, fixed at session start; a session on a non-empty collection that
runs to completion presents each of the stored cards exactly once (no
repetition, no omission), and the registry — in particular the collection's
stored card order — is unchanged by the session. -/
theorem learn_random_visits_each_once (reg : Registry) (col_name : Str)
    (stored shuffled : Collection) (inputs : List Str) (r : SessionResult)
    (hlk : List.lookup col_name reg = some stored)
    (hne : stored ≠ [])
    (hperm : shuffled.Perm stored)
    (hrun : (learn_mode_full reg col_name OrderMode.random shuffled inputs).1 = some r)
    (hend : r.endedEarly = false) :
    r.visited.Perm stored ∧
    (∀ c : Card, r.visited.count c = stored.count c) ∧
    (learn_mode_full reg col_name OrderMode.random shuffled inputs).2 = reg := by
  have hg : get_cards reg col_name = stored := by simp [get_cards, hlk]
  have hse : stored.isEmpty = false := by
    cases stored
    · exact absurd rfl hne
    · rfl
  have hrun' : runCards shuffled.length 0 0 0 [] shuffled inputs = some r := by
    simpa [learn_mode_full, learn_mode, hg, hse] using hrun
  have hv : r.visited = shuffled := by
    have := runCards_complete shuffled inputs shuffled.length 0 0 0 [] r hrun' hend
    simpa using this
  have hvp : r.visited.Perm stored := by rw [hv]; exact hperm
  exact ⟨hvp, fun c => hvp.count_eq c, rfl⟩

/-- C1 witness: a two-card collection drilled in the reversed order with two
judgments visits both cards, a permutation of the stored pair. -/
theorem learn_random_visits_each_once_witness :
    List.Perm [Card.mk "2".data "h".data "k".data, Card.mk "1".data "f".data "g".data]
      [Card.mk "1".data "f".data "g".data, Card.mk "2".data "h".data "k".data] :=
  (learn_random_visits_each_once
    [("col".data, [Card.mk "1".data "f".data "g".data, Card.mk "2".data "h".data "k".data])]
    "col".data
    [Card.mk "1".data "f".data "g".data, Card.mk "2".data "h".data "k".data]
    [Card.mk "2".data "h".data "k".data, Card.mk "1".data "f".data "g".data]
    [[], "y".data, [], "n".data]
    (SessionResult.mk 1 1 0 2 2 false
      [Card.mk "2".data "h".data "k".data, Card.mk "1".data "f".data "g".data])
    (by decide) (by decide) (by decide) (by decide) rfl).1

/-- Canonical accepted answer line for each judgment. -/
def canon : Judgment → Str
  | Judgment.correct => "y".data
  | Judgment.wrong => "n".data
  | Judgment.skipped => "s".data
  | Judgment.quit => "q".data

/-- Scripted input for a run of judgments: one (ignored) reveal line and one
canonical answer line per card. -/
def mkInputs : List Judgment → List Str
  | [] => []
  | j :: js => [] :: canon j :: mkInputs js

/-- Helper: each canonical answer line classifies as its judgment. -/
lemma classify_canon (j : Judgment) : classify (canon j) = some j := by
  cases j <;> rfl

/-- Helper: a scripted block of non-quit judgments walks through exactly that
block of cards, adding each judgment to its counter, and hands the rest of
the cards and input on. -/
lemma runCards_segment (pre : Collection) :
    ∀ js (more : List Str) restCards total corr wrg skp seen,
    js.length = pre.length → Judgment.quit ∉ js →
    runCards total corr wrg skp seen (pre ++ restCards) (mkInputs js ++ more) =
      runCards total (corr + js.count Judgment.correct) (wrg + js.count Judgment.wrong)
        (skp + js.count Judgment.skipped) (pre.reverse ++ seen) restCards more := by
  induction pre with
  | nil =>
    intro js more restCards total corr wrg skp seen hlen _
    have hjs : js = [] := List.eq_nil_of_length_eq_zero (by simpa using hlen)
    subst hjs
    simp [mkInputs]
  | cons card pre ih =>
    intro js more restCards total corr wrg skp seen hlen hnq
    cases js with
    | nil => simp at hlen
    | cons j js =>
      have hnq' : Judgment.quit ∉ js := fun h => hnq (by simp [h])
      have hlen' : js.length = pre.length := by simpa using hlen
      simp only [mkInputs, List.cons_append, runCards, nextJudgment, classify_canon]
      cases j
      case correct =>
        refine (ih js more restCards total (corr + 1) wrg skp (card :: seen) hlen' hnq').trans ?_
        have e : corr + 1 + js.count Judgment.correct
            = corr + (js.count Judgment.correct + 1) := by omega
        have h1 : (Judgment.correct :: js).count Judgment.correct
            = js.count Judgment.correct + 1 := by simp
        have h2 : (Judgment.correct :: js).count Judgment.wrong
            = js.count Judgment.wrong := by simp
        have h3 : (Judgment.correct :: js).count Judgment.skipped
            = js.count Judgment.skipped := by simp
        rw [e, h1, h2, h3, List.reverse_cons, List.append_assoc, List.singleton_append]
      case wrong =>
        refine (ih js more restCards total corr (wrg + 1) skp (card :: seen) hlen' hnq').trans ?_
        have e : wrg + 1 + js.count Judgment.wrong
            = wrg + (js.count Judgment.wrong + 1) := by omega
        have h1 : (Judgment.wrong :: js).count Judgment.correct
            = js.count Judgment.correct := by simp
        have h2 : (Judgment.wrong :: js).count Judgment.wrong
            = js.count Judgment.wrong + 1 := by simp
        have h3 : (Judgment.wrong :: js).count Judgment.skipped
            = js.count Judgment.skipped := by simp
        rw [e, h1, h2, h3, List.reverse_cons, List.append_assoc, List.singleton_append]
      case skipped =>
        refine (ih js more restCards total corr wrg (skp + 1) (card :: seen) hlen' hnq').trans ?_
        have e : skp + 1 + js.count Judgment.skipped
            = skp + (js.count Judgment.skipped + 1) := by omega
        have h1 : (Judgment.skipped :: js).count Judgment.correct
            = js.count Judgment.correct := by simp
        have h2 : (Judgment.skipped :: js).count Judgment.wrong
            = js.count Judgment.wrong := by simp
        have h3 : (Judgment.skipped :: js).count Judgment.skipped
            = js.count Judgment.skipped + 1 := by simp
        rw [e, h1, h2, h3, List.reverse_cons, List.append_assoc, List.singleton_append]
      case quit => exact absurd (List.mem_cons_self _ _) hnq

/-- Helper: a scripted quit at the answer prompt ends the session at once
with the tallies accumulated so far; the unread input is never consumed. -/
lemma runCards_quit (card : Card) (restCards : List Card) (more : List Str)
    (total corr wrg skp : Nat) (seen : List Card) :
    runCards total corr wrg skp seen (card :: restCards) ([] :: canon Judgment.quit :: more) =
      some (SessionResult.mk corr wrg skp total (card :: seen).length true
        (card :: seen).reverse) := by
  simp only [runCards, nextJudgment, classify_canon]

/-- C2: a quit judgment ends the session immediately: no later card is
presented and no further input is read; the terminal state exposes the
tallies `correct`, `wrong`, `skipped`, `total_cards` and `cards_seen`, the
counters covering exactly the cards judged before the quit, so a quit on
the card after a block of k judged cards leaves `cards_seen = k + 1`. -/
theorem learn_quit_early (pre : Collection) (qc : Card) (rest : Collection)
    (js : List Judgment) (extra : List Str)
    (hlen : js.length = pre.length)
    (hnq : Judgment.quit ∉ js) :
    learn_mode (pre ++ qc :: rest) OrderMode.inOrder (pre ++ qc :: rest)
        (mkInputs js ++ ([] :: canon Judgment.quit :: extra)) =
      some (SessionResult.mk (js.count Judgment.correct) (js.count Judgment.wrong)
        (js.count Judgment.skipped) (pre ++ qc :: rest).length (pre.length + 1) true
        (pre ++ [qc])) := by
  have hne : (pre ++ qc :: rest).isEmpty = false := by cases pre <;> rfl
  simp only [learn_mode, hne, Bool.false_eq_true, if_false]
  rw [runCards_segment pre js ([] :: canon Judgment.quit :: extra) (qc :: rest)
    (pre ++ qc :: rest).length 0 0 0 [] hlen hnq]
  rw [runCards_quit]
  simp

/-- C2 witness: quitting on the second of three concrete cards yields
tallies with one judged card, `cards_seen = 2`, and the third card never
presented. -/
theorem learn_quit_early_witness :
    learn_mode ([Card.mk "1".data "f".data "g".data] ++
        Card.mk "2".data "h".data "k".data :: [Card.mk "3".data "p".data "r".data])
        OrderMode.inOrder
        ([Card.mk "1".data "f".data "g".data] ++
        Card.mk "2".data "h".data "k".data :: [Card.mk "3".data "p".data "r".data])
        (mkInputs [Judgment.correct] ++ ([] :: canon Judgment.quit :: ["x".data])) =
      some (SessionResult.mk 1 0 0 3 2 true
        ([Card.mk "1".data "f".data "g".data] ++ [Card.mk "2".data "h".data "k".data])) :=
  learn_quit_early [Card.mk "1".data "f".data "g".data]
    (Card.mk "2".data "h".data "k".data) [Card.mk "3".data "p".data "r".data]
    [Judgment.correct] ["x".data] rfl (by decide)

/-- A decoded JSON document, the value space of `json.load`/`json.dump`. -/
inductive Json where
  | null
  | bool (b : Bool)
  | num (n : Int)
  | str (s : Str)
  | arr (items : List Json)
  | obj (fields : List (Str × Json))

/-- State of the backing store `flashcards.json` as `load_data` can find it:
missing file, unreadable or undecodable file (`json.JSONDecodeError` /
`OSError`), or a decoded document. -/
inductive Store where
  | absent
  | corrupt
  | content (doc : Json)

/-- Function `_default_data`: the empty registry document. -/
def default_data : Json := Json.obj [("collections".data, Json.obj [])]

/-- Python `isinstance(data, dict)` on a decoded document. -/
def Json.isDict : Json → Bool
  | Json.obj _ => true
  | _ => false

/-- Python `"collections" in data` on a decoded document. -/
def hasCollections : Json → Bool
  | Json.obj fields => fields.any (fun p => p.1 == "collections".data)
  | _ => false

/-- Function `load_data`: default on a missing file, default on a read or
decode failure, default when the decoded value is not a dict holding the
`collections` key, and otherwise the decoded document itself, unvalidated
any deeper. -/
def load_data : Store → Json
  | Store.absent => default_data
  | Store.corrupt => default_data
  | Store.content d => if d.isDict && hasCollections d then d else default_data

/-- Function `save_data`: serialize the whole document to the store (the
byte-level encoding through the `json` library is the external collaborator
and round-trips a decoded document unchanged). -/
def save_data (d : Json) : Store := Store.content d

/-- Serialized shape of a card, `{"id": ..., "front": ..., "back": ...}`. -/
def cardToJson (c : Card) : Json :=
  Json.obj [("id".data, Json.str c.id), ("front".data, Json.str c.front),
    ("back".data, Json.str c.back)]

/-- Serialized shape of a collection, `{"cards": [...]}`. -/
def collectionToJson (cards : Collection) : Json :=
  Json.obj [("cards".data, Json.arr (cards.map cardToJson))]

/-- Serialized shape of the registry, `{"collections": {...}}`. -/
def registryToJson (reg : Registry) : Json :=
  Json.obj [("collections".data,
    Json.obj (reg.map (fun p => (p.1, collectionToJson p.2))))]

/-- Reading of one card from a decoded document, mirroring the field
accesses `c["id"]`, `c["front"]`, `c["back"]` the program performs. -/
def decodeCard : Json → Option Card
  | Json.obj fields =>
    match List.lookup "id".data fields, List.lookup "front".data fields,
        List.lookup "back".data fields with
    | some (Json.str i), some (Json.str f), some (Json.str b) => some (Card.mk i f b)
    | _, _, _ => none
  | _ => none

/-- Reading of a card array from a decoded document. -/
def decodeCards : List Json → Option Collection
  | [] => some []
  | j :: rest =>
    match decodeCard j, decodeCards rest with
    | some c, some cs => some (c :: cs)
    | _, _ => none

/-- Reading of one collection, mirroring the access `col["cards"]`. -/
def decodeCollection : Json → Option Collection
  | Json.obj fields =>
    match List.lookup "cards".data fields with
    | some (Json.arr items) => decodeCards items
    | _ => none
  | _ => none

/-- Reading of the entries of the `collections` mapping. -/
def decodeEntries : List (Str × Json) → Option Registry
  | [] => some []
  | (n, cj) :: rest =>
    match decodeCollection cj, decodeEntries rest with
    | some cards, some r => some ((n, cards) :: r)
    | _, _ => none

/-- Reading of the whole registry, mirroring `data["collections"]`. -/
def decodeRegistry : Json → Option Registry
  | Json.obj fields =>
    match List.lookup "collections".data fields with
    | some (Json.obj cols) => decodeEntries cols
    | _ => none
  | _ => none

/-- Helper: a mapped card list reads back as itself. -/
lemma decodeCards_map (cards : Collection) :
    decodeCards (cards.map cardToJson) = some cards := by
  induction cards with
  | nil => rfl
  | cons c rest ih => simp [decodeCards, decodeCard, cardToJson, List.lookup, ih]

/-- Helper: mapped registry entries read back as themselves. -/
lemma decodeEntries_map (reg : Registry) :
    decodeEntries (reg.map (fun p => (p.1, collectionToJson p.2))) = some reg := by
  induction reg with
  | nil => rfl
  | cons p rest ih =>
    have hc : decodeCollection (collectionToJson p.2) = some p.2 := by
      simp [decodeCollection, collectionToJson, List.lookup, decodeCards_map]
    simp [List.map_cons, decodeEntries, hc, ih]

/-- C7: saving any registry and loading it back reproduces the identical
document — the shape check of `load_data` accepts every saved registry — and
the document still reads as the same registry: same collection names, same
cards with the same id, front and back, in the same order. -/
theorem save_load_roundtrip (reg : Registry) :
    load_data (save_data (registryToJson reg)) = registryToJson reg ∧
    decodeRegistry (load_data (save_data (registryToJson reg))) = some reg := by
  have hload : load_data (save_data (registryToJson reg)) = registryToJson reg := by
    simp [load_data, save_data, registryToJson, Json.isDict, hasCollections]
  refine ⟨hload, ?_⟩
  rw [hload]
  simp [decodeRegistry, registryToJson, List.lookup, decodeEntries_map]

/-- C8: `load_data` returns the empty-registry document rather than failing
when the store is absent, unreadable, or decodes to anything that is not a
dict with the `collections` key; otherwise it returns the decoded document
as is.  Every value it returns is a dict with the `collections` key. -/
theorem load_data_fallback :
    load_data Store.absent = default_data ∧
    load_data Store.corrupt = default_data ∧
    (∀ d : Json, d.isDict = false → load_data (Store.content d) = default_data) ∧
    (∀ d : Json, hasCollections d = false → load_data (Store.content d) = default_data) ∧
    (∀ d : Json, d.isDict = true → hasCollections d = true →
      load_data (Store.content d) = d) ∧
    (∀ s : Store, (load_data s).isDict = true ∧ hasCollections (load_data s) = true) := by
  refine ⟨rfl, rfl, ?_, ?_, ?_, ?_⟩
  · intro d h; simp [load_data, h]
  · intro d h; simp [load_data, h]
  · intro d h1 h2; simp [load_data, h1, h2]
  · intro s
    cases s with
    | absent => exact ⟨rfl, rfl⟩
    | corrupt => exact ⟨rfl, rfl⟩
    | content d =>
      by_cases h : (d.isDict && hasCollections d) = true
      · constructor
        · simp [load_data, h]
          exact (Bool.and_eq_true_iff.mp h).1
        · simp [load_data, h]
          exact (Bool.and_eq_true_iff.mp h).2
      · simp [load_data, h]
        exact ⟨rfl, rfl⟩

/-- C8 witness: a decoded document that is not a dict, and a dict missing the
key, both fall back to the empty registry. -/
theorem load_data_fallback_witness :
    load_data (Store.content (Json.num 3)) = default_data ∧
    load_data (Store.content (Json.obj [])) = default_data :=
  ⟨load_data_fallback.2.2.1 (Json.num 3) rfl,
   load_data_fallback.2.2.2.1 (Json.obj []) rfl⟩

/-- Helper: a list that survives `dropWhile` whole does so for any front
part of it as well. -/
lemma dropWhile_eq_self_of_append (p : Char → Bool) (u z : Str)
    (h : List.dropWhile p (u ++ z) = u ++ z) : List.dropWhile p u = u := by
  cases u with
  | nil => rfl
  | cons a u1 =>
    cases hpa : p a with
    | false => simp [List.dropWhile_cons, hpa]
    | true =>
      exfalso
      have h' : List.dropWhile p (u1 ++ z) = a :: (u1 ++ z) := by
        simpa [List.dropWhile_cons, hpa] using h
      have hs : List.dropWhile p (u1 ++ z) <:+ u1 ++ z := List.dropWhile_suffix p
      have hle := hs.length_le
      rw [h'] at hle
      simp at hle

/-- Helper: `str.strip()` is idempotent. -/
lemma pyStrip_idem (s : Str) : pyStrip (pyStrip s) = pyStrip s := by
  have hA : List.dropWhile Char.isWhitespace (s.dropWhile Char.isWhitespace)
      = s.dropWhile Char.isWhitespace := List.dropWhile_idempotent _ _
  have hb : List.dropWhile Char.isWhitespace (pyStrip s).reverse = (pyStrip s).reverse := by
    simp only [pyStrip, List.reverse_reverse]
    exact List.dropWhile_idempotent _ _
  have hsuf : List.dropWhile Char.isWhitespace (s.dropWhile Char.isWhitespace).reverse
      <:+ (s.dropWhile Char.isWhitespace).reverse := List.dropWhile_suffix _
  have hpre : pyStrip s <+: s.dropWhile Char.isWhitespace := by
    have hp := List.reverse_prefix.mpr hsuf
    simpa [pyStrip] using hp
  obtain ⟨z, hz⟩ := hpre
  have ha : List.dropWhile Char.isWhitespace (pyStrip s) = pyStrip s := by
    apply dropWhile_eq_self_of_append Char.isWhitespace (pyStrip s) z
    rw [hz]
    exact hA
  calc pyStrip (pyStrip s)
      = ((List.dropWhile Char.isWhitespace (pyStrip s)).reverse.dropWhile
          Char.isWhitespace).reverse := rfl
    _ = (List.dropWhile Char.isWhitespace (pyStrip s).reverse).reverse := by rw [ha]
    _ = ((pyStrip s).reverse).reverse := by rw [hb]
    _ = pyStrip s := List.reverse_reverse _

/-- Function `prompt_nonempty`: read lines until one has a nonempty strip,
returning the stripped text; `none` models an input stream that runs dry
while the loop keeps asking. -/
def prompt_nonempty : List Str → Option Str
  | [] => none
  | s :: rest => if pyStrip s = [] then prompt_nonempty rest else some (pyStrip s)

/-- Text that is non-empty and carries no surrounding whitespace. -/
def trimmedNonempty (s : Str) : Bool := decide (s ≠ [] ∧ pyStrip s = s)

/-- A card whose two text fields are trimmed and non-empty. -/
def goodCard (c : Card) : Bool := trimmedNonempty c.front && trimmedNonempty c.back

/-- A collection all of whose cards are well-trimmed. -/
def goodCollection (cards : Collection) : Bool := cards.all goodCard

/-- Helper: the in-place update of `edit_card` keeps both fields trimmed and
non-empty. -/
lemma goodCard_applyEdit (c : Card) (nf nb : Str) (h : goodCard c = true) :
    goodCard (applyEdit c nf nb) = true := by
  simp only [goodCard, Bool.and_eq_true, trimmedNonempty, decide_eq_true_eq] at h ⊢
  obtain ⟨hf, hbk⟩ := h
  constructor
  · by_cases hnf : pyStrip nf = []
    · simpa [applyEdit, hnf] using hf
    · simp [applyEdit, hnf, pyStrip_idem]
  · by_cases hnb : pyStrip nb = []
    · simpa [applyEdit, hnb] using hbk
    · simp [applyEdit, hnb, pyStrip_idem]

/-- Helper: well-trimmedness passes to any subsequence of a collection. -/
lemma goodCollection_sublist (l1 l2 : Collection) (hs : l1.Sublist l2)
    (h : goodCollection l2 = true) : goodCollection l1 = true := by
  simp only [goodCollection, List.all_eq_true] at h ⊢
  exact fun c hc => h c (hs.subset hc)

/-- Helper: `edit_card` preserves well-trimmedness of the collection. -/
lemma goodCollection_edit (cards : Collection) (i nf nb : Str)
    (h : goodCollection cards = true) :
    goodCollection (edit_card cards i nf nb) = true := by
  induction cards with
  | nil => rfl
  | cons c rest ih =>
    simp only [goodCollection, List.all_cons, Bool.and_eq_true] at h
    obtain ⟨hc, hrest⟩ := h
    simp only [edit_card]
    cases hid : c.id == i with
    | true =>
      simp only [if_true]
      simp only [goodCollection, List.all_cons, Bool.and_eq_true]
      exact ⟨goodCard_applyEdit c nf nb hc, hrest⟩
    | false =>
      simp only [Bool.false_eq_true, if_false]
      simp only [goodCollection, List.all_cons, Bool.and_eq_true]
      exact ⟨hc, ih hrest⟩

/-- C10: text stored by the interactive flows is trimmed and non-empty —
`prompt_nonempty` only delivers such text, `add_card` with such inputs and
`edit_card` and `delete_card` on any inputs preserve the property — while
`load_data` validates nothing below the top-level key and therefore accepts
a document carrying a card that violates it. -/
theorem trimmed_invariant :
    (∀ inputs s, prompt_nonempty inputs = some s → s ≠ [] ∧ pyStrip s = s) ∧
    (∀ cards front back n, goodCollection cards = true →
      front ≠ [] → pyStrip front = front → back ≠ [] → pyStrip back = back →
      goodCollection (add_card cards front back n) = true) ∧
    (∀ cards i nf nb, goodCollection cards = true →
      goodCollection (edit_card cards i nf nb) = true) ∧
    (∀ cards i, goodCollection cards = true →
      goodCollection (delete_card cards i).2 = true) ∧
    (∃ j : Json, load_data (Store.content j) = j ∧
      ∃ reg : Registry, decodeRegistry j = some reg ∧
        reg.any (fun p => p.2.any (fun c => !goodCard c)) = true) := by
  refine ⟨?_, ?_, ?_, ?_, ?_⟩
  · intro inputs
    induction inputs with
    | nil => intro s hs; exact absurd hs (by simp [prompt_nonempty])
    | cons a rest ih =>
      intro s hs
      by_cases ha : pyStrip a = []
      · exact ih s (by simpa [prompt_nonempty, ha] using hs)
      · have hv : s = pyStrip a := by
          have := hs
          simp only [prompt_nonempty, ha, if_neg, if_false] at this
          exact (Option.some.inj this).symm
        subst hv
        exact ⟨ha, pyStrip_idem a⟩
  · intro cards front back n hg hf1 hf2 hb1 hb2
    simp only [add_card, goodCollection, List.all_append, Bool.and_eq_true]
    refine ⟨hg, ?_⟩
    simp [goodCard, trimmedNonempty, hf1, hf2, hb1, hb2]
  · intro cards i nf nb hg
    exact goodCollection_edit cards i nf nb hg
  · intro cards i hg
    cases hf : find_card cards i with
    | none => simpa [delete_card, hf] using hg
    | some c =>
      have : (delete_card cards i).2 = cards.erase c := by simp [delete_card, hf]
      rw [this]
      exact goodCollection_sublist _ _ (List.erase_sublist c cards) hg
  · refine ⟨Json.obj [("collections".data, Json.obj [("c".data, Json.obj [("cards".data,
      Json.arr [Json.obj [("id".data, Json.str "x".data),
        ("front".data, Json.str " ".data),
        ("back".data, Json.str "b".data)]])])])], rfl,
      [("c".data, [Card.mk "x".data " ".data "b".data])], by decide, by decide⟩

/-- C10 witness: adding a concrete trimmed card to the empty collection
keeps the collection well-trimmed. -/
theorem trimmed_invariant_witness :
    goodCollection (add_card [] "f".data "b".data 0) = true :=
  trimmed_invariant.2.1 [] "f".data "b".data 0 rfl (by decide) (by decide)
    (by decide) (by decide)
